import Mathlib

/-!
Shallow embedding of the pysph computational core:

* the pairwise SPH evaluators of `source/pysph/sph/funcs/pressure_funcs.pyx`
  and its newer variant (the unnamed source file holding `eval_nbr`), and
* the particle property storage engine of
  `source/pysph/base/particle_array.pyx`.

Machine double arithmetic is modelled by exact rationals; the numeric claims
under scrutiny concern the algebraic form of the computed contributions, not
rounding.  The carray (Column) layer lives in `pysph/base/carray` which is not
part of the provided sources; its operations are modelled from the
specification where noted.
-/

namespace PySPH

/-- 3-component point, mirroring the pysph cPoint struct. -/
structure Point3 where
  x : ℚ
  y : ℚ
  z : ℚ
deriving DecidableEq

/-- cPoint_dot: componentwise dot product. -/
def cPoint_dot (a b : Point3) : ℚ := a.x * b.x + a.y * b.y + a.z * b.z

/-- cPoint_norm: in pysph this is the squared length x*x + y*y + z*z. -/
def cPoint_norm (a : Point3) : ℚ := a.x * a.x + a.y * a.y + a.z * a.z

/-- The per-particle column values an evaluator reads from one side
(position, velocity, smoothing length, mass, density, pressure, sound speed).
These are the entries `s_x.data[pid]` etc. of the source / destination
ParticleArray at the given particle id. -/
structure PData where
  x : ℚ
  y : ℚ
  z : ℚ
  u : ℚ
  v : ℚ
  w : ℚ
  h : ℚ
  m : ℚ
  rho : ℚ
  p : ℚ
  cs : ℚ
deriving DecidableEq

/-- Position of a particle, the point loaded into `self._src` / `self._dst`. -/
def pos (d : PData) : Point3 := ⟨d.x, d.y, d.z⟩

/-- Configuration flags an SPHFunctionParticle carries (kernel symmetrization
`hks`, output dimensionality `num_outputs`, and the optional gradient
correction hooks).  `bonnetCorr` models the external
`bonnet_and_lok_gradient_correction` hook, which is invoked only when its flag
is set; the rkpm branch of the source is literally `pass`. -/
structure EvalConfig where
  hks : Bool
  num_outputs : Nat
  bonnet_and_lok_correction : Bool
  rkpm_first_order_correction : Bool
  bonnetCorr : Point3 → Point3

/-- `SPHPressureGradient.eval_nbr` from the unnamed source file: reads the two
particles, computes `temp = (pa/rhoa^2 + pb/rhob^2) * (-mb)`, evaluates the
kernel gradient (symmetrized over the two smoothing lengths when `hks`),
applies the optional correction hook, and accumulates `temp * grad` into the
output components allowed by `num_outputs`. -/
def SPHPressureGradient.eval_nbr (cfg : EvalConfig)
    (kernel : Point3 → Point3 → ℚ → Point3)
    (src dst : PData) (nr : Point3) : Point3 :=
  let mb := src.m
  let rhoa := dst.rho
  let rhob := src.rho
  let pa := dst.p
  let pb := src.p
  let ha := dst.h
  let hb := src.h
  let h := (1/2 : ℚ) * (ha + hb)
  let temp := pa/(rhoa*rhoa) + pb/(rhob*rhob)
  let temp := temp * (-mb)
  let grad :=
    if cfg.hks then
      let grada := kernel (pos dst) (pos src) ha
      let gradb := kernel (pos dst) (pos src) hb
      Point3.mk ((grada.x + gradb.x) * (1/2)) ((grada.y + gradb.y) * (1/2))
        ((grada.z + gradb.z) * (1/2))
    else
      kernel (pos dst) (pos src) h
  let grad := if cfg.bonnet_and_lok_correction then cfg.bonnetCorr grad else grad
  if 1 < cfg.num_outputs then
    if 2 < cfg.num_outputs then
      ⟨nr.x + temp * grad.x, nr.y + temp * grad.y, nr.z + temp * grad.z⟩
    else
      ⟨nr.x + temp * grad.x, nr.y + temp * grad.y, nr.z⟩
  else
    ⟨nr.x + temp * grad.x, nr.y, nr.z⟩

/-- The numeric coefficients of the MomentumEquation evaluator. -/
structure MomentumCoeffs where
  alpha : ℚ
  beta : ℚ
  gamma : ℚ
  eta : ℚ

/-- `MomentumEquation.eval_nbr` from the unnamed source file: computes the
relative position and velocity, the artificial viscosity term `piab` (only
when `dot < 0`), then accumulates
`(Pa/rhoa^2 + Pb/rhob^2 + piab) * (-mb) * grad`. -/
def MomentumEquation.eval_nbr (co : MomentumCoeffs) (cfg : EvalConfig)
    (kernel : Point3 → Point3 → ℚ → Point3)
    (src dst : PData) (nr : Point3) : Point3 :=
  let ha := dst.h
  let hb := src.h
  let hab := (1/2 : ℚ) * (ha + hb)
  let ca := dst.cs
  let cb := src.cs
  let rab : Point3 := ⟨dst.x - src.x, dst.y - src.y, dst.z - src.z⟩
  let vab : Point3 := ⟨dst.u - src.u, dst.v - src.v, dst.w - src.w⟩
  let dot := cPoint_dot vab rab
  let Pa := dst.p
  let rhoa := dst.rho
  let Pb := src.p
  let rhob := src.rho
  let mb := src.m
  let tmp := Pa/(rhoa*rhoa) + Pb/(rhob*rhob)
  let piab : ℚ :=
    if dot < 0 then
      let cab := (1/2 : ℚ) * (ca + cb)
      let rhoab := (1/2 : ℚ) * (rhoa + rhob)
      let mu := (hab * dot) / (cPoint_norm rab + co.eta * co.eta * hab * hab)
      ((-co.alpha) * cab * mu + co.beta * mu * mu) / rhoab
    else 0
  let tmp := (tmp + piab) * (-mb)
  let grad :=
    if cfg.hks then
      let grada := kernel (pos dst) (pos src) ha
      let gradb := kernel (pos dst) (pos src) hb
      Point3.mk ((grada.x + gradb.x) * (1/2)) ((grada.y + gradb.y) * (1/2))
        ((grada.z + gradb.z) * (1/2))
    else
      kernel (pos dst) (pos src) hab
  let grad := if cfg.bonnet_and_lok_correction then cfg.bonnetCorr grad else grad
  if 1 < cfg.num_outputs then
    if 2 < cfg.num_outputs then
      ⟨nr.x + tmp * grad.x, nr.y + tmp * grad.y, nr.z + tmp * grad.z⟩
    else
      ⟨nr.x + tmp * grad.x, nr.y + tmp * grad.y, nr.z⟩
  else
    ⟨nr.x + tmp * grad.x, nr.y, nr.z⟩

/-- C1: for every source/destination pair, the pressure-gradient evaluator
(in its default configuration: no kernel symmetrization, no gradient
correction, 3 output components) adds to the accumulator exactly
`coeff * kernelGradient(dst_pos, src_pos, h)` where `h = 0.5*(h_src + h_dst)`
and `coeff = -m_src * (P_dst/rho_dst^2 + P_src/rho_src^2)`. -/
theorem pressure_gradient_eval_nbr_formula (cfg : EvalConfig)
    (kernel : Point3 → Point3 → ℚ → Point3) (src dst : PData) (nr : Point3)
    (hph : cfg.hks = false) (hpb : cfg.bonnet_and_lok_correction = false)
    (hpn : cfg.num_outputs = 3) :
    SPHPressureGradient.eval_nbr cfg kernel src dst nr =
      let h := (1/2 : ℚ) * (src.h + dst.h)
      let coeff := -src.m * (dst.p/(dst.rho*dst.rho) + src.p/(src.rho*src.rho))
      let g := kernel (pos dst) (pos src) h
      ⟨nr.x + coeff * g.x, nr.y + coeff * g.y, nr.z + coeff * g.z⟩ := by
  simp only [SPHPressureGradient.eval_nbr, hph, hpb, hpn, if_false,
    Bool.false_eq_true, if_neg]
  norm_num
  have hcomm : (1/2 : ℚ) * (dst.h + src.h) = (1/2 : ℚ) * (src.h + dst.h) := by ring
  rw [hcomm]
  refine ⟨by ring, by ring, by ring⟩

/-- C1 witness: two particles with `P_a = P_b = 1`, `rho_a = rho_b = 1`,
`m_b = 2`, `h = 1`, and a kernel whose gradient is `(1/10, 0, 0)`:
the contribution added to a zero accumulator is `(-2/5, 0, 0)`. -/
theorem pressure_gradient_eval_nbr_formula_witness :
    SPHPressureGradient.eval_nbr ⟨false, 3, false, false, id⟩
      (fun _ _ _ => ⟨1/10, 0, 0⟩)
      ⟨0,0,0, 0,0,0, 1, 2, 1, 1, 0⟩ ⟨1,0,0, 0,0,0, 1, 1, 1, 1, 0⟩
      ⟨0,0,0⟩ = ⟨-2/5, 0, 0⟩ := by
  rw [pressure_gradient_eval_nbr_formula ⟨false, 3, false, false, id⟩
    (fun _ _ _ => ⟨1/10, 0, 0⟩)
    ⟨0,0,0, 0,0,0, 1, 2, 1, 1, 0⟩ ⟨1,0,0, 0,0,0, 1, 1, 1, 1, 0⟩
    ⟨0,0,0⟩ rfl rfl rfl]
  norm_num

/-- C2: for every source/destination pair whose relative velocity and relative
position satisfy `dot(v_ab, r_ab) >= 0`, the momentum-equation evaluator (in
its default configuration) uses an artificial-viscosity term equal to 0 for
all coefficient values, so the contribution added is exactly
`-m_src * (P_dst/rho_dst^2 + P_src/rho_src^2)` times the kernel gradient. -/
theorem momentum_eval_nbr_receding (co : MomentumCoeffs) (cfg : EvalConfig)
    (kernel : Point3 → Point3 → ℚ → Point3) (src dst : PData) (nr : Point3)
    (hph : cfg.hks = false) (hpb : cfg.bonnet_and_lok_correction = false)
    (hpn : cfg.num_outputs = 3)
    (hdot : 0 ≤ cPoint_dot ⟨dst.u - src.u, dst.v - src.v, dst.w - src.w⟩
      ⟨dst.x - src.x, dst.y - src.y, dst.z - src.z⟩) :
    MomentumEquation.eval_nbr co cfg kernel src dst nr =
      let h := (1/2 : ℚ) * (src.h + dst.h)
      let coeff := -src.m * (dst.p/(dst.rho*dst.rho) + src.p/(src.rho*src.rho))
      let g := kernel (pos dst) (pos src) h
      ⟨nr.x + coeff * g.x, nr.y + coeff * g.y, nr.z + coeff * g.z⟩ := by
  simp only [MomentumEquation.eval_nbr, hph, hpb, hpn, if_false,
    Bool.false_eq_true, if_neg, not_lt.mpr hdot]
  norm_num
  have hcomm : (1/2 : ℚ) * (dst.h + src.h) = (1/2 : ℚ) * (src.h + dst.h) := by ring
  rw [hcomm]
  refine ⟨by ring, by ring, by ring⟩

/-- C2 witness: receding particles (`r_ab = (1,0,0)`, `v_ab = (1,0,0)`, so
`dot = 1 >= 0`) with nonzero `alpha = 3`, `beta = 7`: the artificial
viscosity vanishes and the accumulated contribution is
`-1 * (1 + 1) * (1/10, 0, 0) = (-1/5, 0, 0)`. -/
theorem momentum_eval_nbr_receding_witness :
    MomentumEquation.eval_nbr ⟨3, 7, 14/10, 1/10⟩ ⟨false, 3, false, false, id⟩
      (fun _ _ _ => ⟨1/10, 0, 0⟩)
      ⟨0,0,0, 0,0,0, 1, 1, 1, 1, 0⟩ ⟨1,0,0, 1,0,0, 1, 1, 1, 1, 0⟩
      ⟨0,0,0⟩ = ⟨-1/5, 0, 0⟩ := by
  rw [momentum_eval_nbr_receding ⟨3, 7, 14/10, 1/10⟩ ⟨false, 3, false, false, id⟩
    (fun _ _ _ => ⟨1/10, 0, 0⟩)
    ⟨0,0,0, 0,0,0, 1, 1, 1, 1, 0⟩ ⟨1,0,0, 1,0,0, 1, 1, 1, 1, 0⟩
    ⟨0,0,0⟩ rfl rfl rfl (by norm_num [cPoint_dot])]
  norm_num

/-! ## The Column (carray) layer

The carray implementation (`pysph/base/carray`) is not part of the provided
sources; only its callers in `particle_array.pyx` are.  The operations below
are therefore modelled from the specification (section 4.1), with the exact
tail-swap compaction trade-off the spec prescribes for removal. -/

/-- Element type tag of a column (DoubleArray / LongArray / FloatArray /
IntArray).  All values are modelled as rationals. -/
inductive DataType where
  | double
  | long
  | float
  | int
deriving DecidableEq

/-- A carray: a homogeneously typed dense array of scalars. -/
structure Column where
  dtype : DataType
  vals : List ℚ
deriving DecidableEq

/-- Value of a list at an index (0 when out of range); models `data[i]`. -/
def valAt (l : List ℚ) (i : Nat) : ℚ := (l[i]?).getD 0

/-- One tail-swap step: overwrite slot `i` with the last element and shrink
the array by one; a no-op when `i` is out of range. -/
def tailSwapRemove (xs : List ℚ) (i : Nat) : List ℚ :=
  if i < xs.length then (xs.set i (valAt xs (xs.length - 1))).dropLast else xs

/-- Modelled from the spec: `Column.removeAt(sortedUniqueIndices)` of the
carray layer (pysph/base/carray, not under src/) removes the elements at the
given ascending index set by tail-swap compaction, one swap-and-shrink per
removed index; processing runs from the highest index down so that the net
effect is exactly that the elements whose original index is not in the
removal set survive (in unspecified order), as the spec states. -/
def removeSorted (xs : List ℚ) (sortedIdxs : List Nat) : List ℚ :=
  sortedIdxs.reverse.foldl tailSwapRemove xs

namespace Column

/-- Modelled from the spec: carray `resize(newSize)` truncates or extends;
newly added slots are zero-initialized. -/
def resize (c : Column) (n : Nat) : Column :=
  ⟨c.dtype, c.vals.take n ++ List.replicate (n - c.vals.length) 0⟩

/-- `arr.get_npy_array()[start:] = v`: overwrite the slots from `start` on. -/
def fillFrom (c : Column) (start : Nat) (v : ℚ) : Column :=
  ⟨c.dtype, c.vals.take start ++ List.replicate (c.vals.length - start) v⟩

/-- `arr.get_npy_array()[:] = v`: overwrite every slot. -/
def fillAll (c : Column) (v : ℚ) : Column :=
  ⟨c.dtype, List.replicate c.vals.length v⟩

/-- Modelled from the spec: carray `extend(values)` appends a sequence. -/
def extendVals (c : Column) (vs : List ℚ) : Column :=
  ⟨c.dtype, c.vals ++ vs⟩

/-- Modelled from the spec: carray `set_data` overwrites the column contents
in place and requires the supplied data length to match (the strict-length
contract the spec adopts for the store `set` operation). -/
def set_data (c : Column) (data : List ℚ) : Except String Column :=
  if data.length = c.vals.length then .ok ⟨c.dtype, data⟩
  else .error "array size mismatch"

/-- carray `remove(sorted_indices, 1)`: tail-swap removal. -/
def remove (c : Column) (sortedIdxs : List Nat) : Column :=
  ⟨c.dtype, removeSorted c.vals sortedIdxs⟩

end Column

/-! ## Association lists modelling python dicts -/

/-- Dict lookup `d[k]` / `d.get(k)`. -/
def assocFind {β : Type} (l : List (String × β)) (k : String) : Option β :=
  match l with
  | [] => none
  | (k', v) :: t => if k' = k then some v else assocFind t k

/-- Dict assignment `d[k] = v`: update in place, or append a new binding. -/
def assocSet {β : Type} (l : List (String × β)) (k : String) (v : β) :
    List (String × β) :=
  match l with
  | [] => [(k, v)]
  | (k', v') :: t => if k' = k then (k, v) :: t else (k', v') :: assocSet t k v

/-! ## The ParticleArray store -/

/-- The state of a ParticleArray: the named property columns (insertion
order, `tag` first by construction), the recorded per-property defaults, the
temporary scratch columns, and the dirty flag. -/
structure ParticleArray where
  properties : List (String × Column)
  default_values : List (String × ℚ)
  temporary_arrays : List (String × Column)
  is_dirty : Bool
deriving DecidableEq

/-- A mutating call returns the (possibly already mutated) store together
with the message of the exception it raised, if any; `none` means the call
returned normally. -/
abbrev PAResult := Option String × ParticleArray

namespace ParticleArray

/-- `__cinit__` without initial props: only the `tag` property (a LongArray
of size 0) and its default. -/
def emptyPA (default_particle_tag : ℚ) : ParticleArray :=
  { properties := [("tag", ⟨.long, []⟩)]
    default_values := [("tag", default_particle_tag)]
    temporary_arrays := []
    is_dirty := true }

/-- `get_number_of_particles`: the length of the first property column. -/
def nparticles (pa : ParticleArray) : Nat :=
  match pa.properties with
  | [] => 0
  | (_, c) :: _ => c.vals.length

/-- `set_dirty(value)`. -/
def set_dirty (pa : ParticleArray) (value : Bool) : ParticleArray :=
  { pa with is_dirty := value }

/-- `clear()`: reset the properties to a fresh zero-length `tag` column, drop
the temporary arrays, set the dirty flag.  (The recorded defaults are kept:
`clear` does not touch `default_values`.) -/
def clear (pa : ParticleArray) : ParticleArray :=
  { pa with properties := [("tag", ⟨.long, []⟩)]
            temporary_arrays := []
            is_dirty := true }

/-- `add_temporary_array(arr_name)`: error when the name is a property;
silently keep the existing column when the temporary already exists;
otherwise register a zero-initialized DoubleArray of the current length. -/
def add_temporary_array (pa : ParticleArray) (arr_name : String) : PAResult :=
  if (assocFind pa.properties arr_name).isSome then
    (some "property exists", pa)
  else if (assocFind pa.temporary_arrays arr_name).isSome then
    (none, pa)
  else
    (none, { pa with temporary_arrays :=
      pa.temporary_arrays ++ [(arr_name, ⟨.double, List.replicate pa.nparticles 0⟩)] })

/-- `remove_particles(index_list)`: raise when more indices than particles
are supplied (before touching anything); otherwise sort the indices
ascending, tail-swap-remove them from every property and temporary column,
and set the dirty flag. -/
def remove_particles (pa : ParticleArray) (index_list : List Nat) : PAResult :=
  if pa.nparticles < index_list.length then
    (some "Number of particles to be removed is greater than number of particles in array", pa)
  else
    let sorted := List.insertionSort (· ≤ ·) index_list
    (none, { pa with
      properties := pa.properties.map (fun q => (q.1, q.2.remove sorted))
      temporary_arrays := pa.temporary_arrays.map (fun q => (q.1, q.2.remove sorted))
      is_dirty := true })

/-- `remove_tagged_particles(tag)`: collect the indices whose `tag` column
entry equals `tag`, delegate to `remove_particles`, and (redundantly) set the
dirty flag again when at least one index matched. -/
def remove_tagged_particles (pa : ParticleArray) (tag : ℚ) : PAResult :=
  match assocFind pa.properties "tag" with
  | none => (some "KeyError: tag", pa)
  | some c =>
    let indices := (List.range c.vals.length).filter (fun i => valAt c.vals i = tag)
    match pa.remove_particles indices with
    | (some e, pa') => (some e, pa')
    | (none, pa') =>
      if 0 < indices.length then (none, { pa' with is_dirty := true })
      else (none, pa')

/-- `extend(num_particles)`: return immediately on a non-positive count;
otherwise grow every property column to `old + num` slots backfilled with the
property default, and every temporary column zero-extended.  The per-property
dict read `self.default_values[key]` is modelled by an up-front check (a
missing default would raise a KeyError mid-loop; such stores are unreachable
through the public interface). -/
def extend (pa : ParticleArray) (num_particles : Int) : PAResult :=
  if num_particles ≤ 0 then (none, pa)
  else if ¬ pa.properties.all (fun q => (assocFind pa.default_values q.1).isSome) then
    (some "KeyError", pa)
  else
    let old_size := pa.nparticles
    let new_size := old_size + num_particles.toNat
    (none, { pa with
      properties := pa.properties.map (fun q =>
        (q.1, (q.2.resize new_size).fillFrom old_size
          ((assocFind pa.default_values q.1).getD 0)))
      temporary_arrays := pa.temporary_arrays.map (fun q => (q.1, q.2.resize new_size)) })

/-- `add_particles(**particle_props)`: return on an empty batch dict; check
every supplied name against both namespaces (`_check_property`); take the
number of extra particles from the first batch; append the supplied values to
the matching property columns and resize-plus-default-backfill the
properties that were not supplied; resize the temporary columns; set the
dirty flag when particles were added.  The batch lengths are NOT validated
against each other.  As in `extend`, the `self.default_values[prop]` reads of
the backfill branch are modelled by an up-front presence check. -/
def add_particles (pa : ParticleArray) (batches : List (String × List ℚ)) :
    PAResult :=
  match batches with
  | [] => (none, pa)
  | (k0, v0) :: _ =>
    if ¬ batches.all (fun b => (assocFind pa.properties b.1).isSome ||
        (assocFind pa.temporary_arrays b.1).isSome) then
      (some "property not present", pa)
    else if ¬ pa.properties.all (fun q => (assocFind batches q.1).isSome ||
        (assocFind pa.default_values q.1).isSome) then
      (some "KeyError", pa)
    else
      let _ := k0
      let num_extra_particles := v0.length
      let old_num_particles := pa.nparticles
      let new_num_particles := num_extra_particles + old_num_particles
      (none, { pa with
        properties := pa.properties.map (fun q =>
          match assocFind batches q.1 with
          | some vs => (q.1, q.2.extendVals vs)
          | none => (q.1, (q.2.resize new_num_particles).fillFrom old_num_particles
              ((assocFind pa.default_values q.1).getD 0)))
        temporary_arrays := pa.temporary_arrays.map (fun q =>
          (q.1, q.2.resize new_num_particles))
        is_dirty := if 0 < num_extra_particles then true else pa.is_dirty })

/-- The `prop_info` dict consumed by `add_property`: optional name, type,
default and data entries. -/
structure PropInfo where
  name : Option String
  type : Option DataType
  dflt : Option ℚ
  data : Option (List ℚ)

/-- `_create_carray(data_type, size, default)`: allocate the typed array and
fill it with the default when the size is positive (a zero size leaves it
empty either way). -/
def _create_carray (data_type : Option DataType) (size : Nat) (dflt : ℚ) :
    Column :=
  let dt := match data_type with
    | none => DataType.double
    | some t => t
  ⟨dt, List.replicate size dflt⟩

/-- `add_property(prop_info)`, translated branch for branch:

* no name: error;
* name already a property (the temporary namespace is NOT consulted):
  log a warning and return unchanged;
* a data array whose length disagrees with a nonzero particle count: error;
* record the default (0 when absent) under the new name;
* `N == 0`, no/empty data: attach a zero-length typed column;
* `N == 0`, nonempty data: resize every existing property to the data length
  and overwrite it wholly with its recorded default
  (`arr.get_npy_array()[:] = self.default_values[prop]`, modelled with an
  up-front defaults-presence check as in `extend`), then
  - without a type: attach the data as a DoubleArray;
  - with a type: the source reads `arr.get_npy_array[:] = numpy.asarray(data)`
    -- the call parentheses are missing, so indexing the bound method object
    raises a TypeError before the new column is attached;
* `N > 0`, no/empty data: attach a typed column of length N filled with the
  default;
* `N > 0`, nonempty data (of length N): attach the data, typed or double. -/
def add_property (pa : ParticleArray) (info : PropInfo) : PAResult :=
  match info.name with
  | none => (some "Cannot add property with no name", pa)
  | some prop_name =>
    if (assocFind pa.properties prop_name).isSome then (none, pa)
    else
      let np := pa.nparticles
      let array_size_proper :=
        match info.data with
        | none => true
        | some d => np == 0 || d.length == 0 || np == d.length
      if array_size_proper = false then (some "Array sizes incompatible", pa)
      else
        let dflt := info.dflt.getD 0
        let pa1 := { pa with default_values := assocSet pa.default_values prop_name dflt }
        if np = 0 then
          if (info.data.getD []).isEmpty then
            (none, { pa1 with properties :=
              pa1.properties ++ [(prop_name, _create_carray info.type 0 dflt)] })
          else if ¬ pa1.properties.all
              (fun q => (assocFind pa1.default_values q.1).isSome) then
            (some "KeyError", pa1)
          else
            let data := info.data.getD []
            let pa2 := { pa1 with properties := pa1.properties.map (fun q =>
              (q.1, (q.2.resize data.length).fillAll
                ((assocFind pa1.default_values q.1).getD 0))) }
            match info.type with
            | none =>
              (none, { pa2 with properties :=
                pa2.properties ++ [(prop_name, ⟨.double, data⟩)] })
            | some _ =>
              (some "TypeError: builtin_function_or_method object does not support item assignment", pa2)
        else
          if (info.data.getD []).isEmpty then
            (none, { pa1 with properties :=
              pa1.properties ++ [(prop_name, _create_carray info.type np dflt)] })
          else
            let data := info.data.getD []
            match info.type with
            | none =>
              (none, { pa1 with properties :=
                pa1.properties ++ [(prop_name, ⟨.double, data⟩)] })
            | some t =>
              (none, { pa1 with properties :=
                pa1.properties ++ [(prop_name, ⟨t, data⟩)] })

/-- One assignment of the `set` loop: write the supplied data into the
property or temporary column of that name (`set_data`); a name in neither
namespace falls through both branches and does nothing. -/
def setOne (pa : ParticleArray) (k : String) (arr : List ℚ) : PAResult :=
  match assocFind pa.properties k with
  | some c =>
    match c.set_data arr with
    | .error e => (some e, pa)
    | .ok c' => (none, { pa with properties := assocSet pa.properties k c' })
  | none =>
    match assocFind pa.temporary_arrays k with
    | some c =>
      match c.set_data arr with
      | .error e => (some e, pa)
      | .ok c' => (none, { pa with temporary_arrays := assocSet pa.temporary_arrays k c' })
    | none => (none, pa)

/-- The second loop of `set`: assign pair after pair, stopping at the first
raised error. -/
def setLoop (pa : ParticleArray) (props : List (String × List ℚ)) : PAResult :=
  match props with
  | [] => (none, pa)
  | (k, arr) :: rest =>
    match setOne pa k arr with
    | (some e, pa') => (some e, pa')
    | (none, pa') => setLoop pa' rest

/-- `set(**props)`: first check that every supplied name is registered in one
of the two namespaces, then overwrite the named columns in place. -/
def set (pa : ParticleArray) (props : List (String × List ℚ)) : PAResult :=
  if ¬ props.all (fun q => (assocFind pa.properties q.1).isSome ||
      (assocFind pa.temporary_arrays q.1).isSome) then
    (some "property not present", pa)
  else setLoop pa props

/-- The per-property loop of `initialize`: raise when the name is already
registered (it never is for distinct keyword names), then delegate to
`add_property` with the name written into the prop_info dict. -/
def initLoop (pa : ParticleArray) (props : List (String × PropInfo)) : PAResult :=
  match props with
  | [] => (none, pa)
  | (nm, info) :: rest =>
    if (assocFind pa.properties nm).isSome then (some "property already exists", pa)
    else
      match pa.add_property ⟨some nm, info.type, info.dflt, info.data⟩ with
      | (some e, pa') => (some e, pa')
      | (none, pa') => initLoop pa' rest

/-- `initialize(**props)` (named `initWithProps` here): clear the store; when
props were given, install the supplied `tag` data first (resize plus
`set_data`, raising a KeyError when the tag prop_info has no data entry) and
add every other property through `add_property`; when `tag` was not supplied
and particles exist afterwards, resize the tag column to the particle count
and overwrite it with the default tag value. -/
def initWithProps (pa : ParticleArray) (props : List (String × PropInfo)) :
    PAResult :=
  let pa0 := pa.clear
  if props.isEmpty then (none, pa0)
  else
    match assocFind props "tag" with
    | some ti =>
      match ti.data with
      | none => (some "KeyError: data", pa0)
      | some d =>
        let pa1 := { pa0 with properties := assocSet pa0.properties "tag" ⟨.long, d⟩ }
        initLoop pa1 (props.filter (fun q => ¬ q.1 = "tag"))
    | none =>
      match initLoop pa0 props with
      | (some e, pa') => (some e, pa')
      | (none, pa') =>
        if 0 < pa'.nparticles then
          match assocFind pa'.default_values "tag", assocFind pa'.properties "tag" with
          | some dtag, some tc =>
            let tagcol := (tc.resize pa'.nparticles).fillAll dtag
            (none, { pa' with properties := assocSet pa'.properties "tag" tagcol })
          | _, _ => (some "KeyError: tag", pa')
        else (none, pa')

/-- The N-invariant: every property column has the length reported by
`get_number_of_particles`. -/
def uniform (pa : ParticleArray) : Prop :=
  ∀ q ∈ pa.properties, q.2.vals.length = pa.nparticles

instance (pa : ParticleArray) : Decidable pa.uniform := by
  unfold uniform
  infer_instance

end ParticleArray

/-! ## Association list lemmas -/

theorem assocFind_mem {β : Type} {l : List (String × β)} {k : String} {v : β}
    (h : assocFind l k = some v) : (k, v) ∈ l := by
  induction l with
  | nil => simp [assocFind] at h
  | cons q t ih =>
    obtain ⟨k', v'⟩ := q
    by_cases hk : k' = k
    · subst hk
      simp [assocFind] at h
      simp [h]
    · simp [assocFind, hk] at h
      exact List.mem_cons_of_mem _ (ih h)

theorem mem_assocSet {β : Type} {l : List (String × β)} {k : String} {v : β}
    {q : String × β} (h : q ∈ assocSet l k v) : q = (k, v) ∨ q ∈ l := by
  induction l with
  | nil => simpa [assocSet] using h
  | cons p t ih =>
    by_cases hk : p.1 = k
    · unfold assocSet at h
      obtain ⟨p1, p2⟩ := p
      simp only at hk
      rw [if_pos hk] at h
      rcases List.mem_cons.mp h with h1 | h1
      · exact Or.inl h1
      · exact Or.inr (List.mem_cons_of_mem _ h1)
    · unfold assocSet at h
      obtain ⟨p1, p2⟩ := p
      simp only at hk
      rw [if_neg hk] at h
      rcases List.mem_cons.mp h with h1 | h1
      · exact Or.inr (by simp [h1])
      · rcases ih h1 with h2 | h2
        · exact Or.inl h2
        · exact Or.inr (List.mem_cons_of_mem _ h2)

/-! ## Column length lemmas -/

namespace Column

theorem length_resize (c : Column) (n : Nat) : (c.resize n).vals.length = n := by
  simp [resize]
  omega

theorem length_fillFrom (c : Column) (s : Nat) (v : ℚ) :
    (c.fillFrom s v).vals.length = c.vals.length := by
  simp [fillFrom]
  omega

theorem length_fillAll (c : Column) (v : ℚ) :
    (c.fillAll v).vals.length = c.vals.length := by
  simp [fillAll]

theorem length_extendVals (c : Column) (vs : List ℚ) :
    (c.extendVals vs).vals.length = c.vals.length + vs.length := by
  simp [extendVals]

theorem set_data_ok_length {c c' : Column} {data : List ℚ}
    (h : c.set_data data = .ok c') : c'.vals.length = c.vals.length := by
  unfold set_data at h
  by_cases hl : data.length = c.vals.length
  · rw [if_pos hl] at h
    cases h
    simpa using hl
  · rw [if_neg hl] at h
    cases h

end Column

namespace ParticleArray

/-- C4: `remove_particles` raises exactly when the index list is longer than
the particle count, and when it raises the store (all property columns, all
temporary columns, the dirty flag) is returned untouched. -/
theorem remove_particles_error_iff (pa : ParticleArray) (index_list : List Nat) :
    (((pa.remove_particles index_list).1.isSome) ↔
        pa.nparticles < index_list.length) ∧
    (pa.nparticles < index_list.length →
        (pa.remove_particles index_list).2 = pa) := by
  unfold remove_particles
  by_cases h : pa.nparticles < index_list.length <;> simp [h]

/-- C4 witness: removing one index from an empty store raises and leaves the
store exactly as it was. -/
theorem remove_particles_error_iff_witness :
    ((emptyPA 0).remove_particles [0]).1.isSome ∧
    ((emptyPA 0).remove_particles [0]).2 = emptyPA 0 :=
  ⟨(remove_particles_error_iff (emptyPA 0) [0]).1.mpr (by decide),
   (remove_particles_error_iff (emptyPA 0) [0]).2 (by decide)⟩

/-- C10: `extend` with a non-positive particle count returns immediately and
the store (columns, defaults, dirty flag) is returned untouched. -/
theorem extend_nonpositive (pa : ParticleArray) (num_particles : Int)
    (h : num_particles ≤ 0) : pa.extend num_particles = (none, pa) := by
  unfold extend
  rw [if_pos h]

/-- C10 witness: extending by -3 is the identity. -/
theorem extend_nonpositive_witness :
    (emptyPA 0).extend (-3) = (none, emptyPA 0) :=
  extend_nonpositive (emptyPA 0) (-3) (by decide)

/-- C8 counterexample: on a store whose temporary namespace holds the name
"t" (and whose property namespace does not), `add_property` for "t" is NOT a
no-op: the call returns without raising, but it registers "t" as a property
and records a default for it, changing the store. -/
theorem add_property_temp_name_counterexample :
    (assocFind (ParticleArray.mk [("tag", ⟨.long, []⟩)] [("tag", 0)]
        [("t", ⟨.double, []⟩)] false).temporary_arrays "t").isSome ∧
    ((ParticleArray.mk [("tag", ⟨.long, []⟩)] [("tag", 0)]
        [("t", ⟨.double, []⟩)] false).add_property ⟨some "t", none, none, none⟩).1 = none ∧
    (assocFind ((ParticleArray.mk [("tag", ⟨.long, []⟩)] [("tag", 0)]
        [("t", ⟨.double, []⟩)] false).add_property
          ⟨some "t", none, none, none⟩).2.properties "t").isSome := by
  decide

/-- C8 amended: `add_property` with a name already registered as a PROPERTY
is a warning-and-return no-op: no exception, and the store is returned
exactly unchanged.  (A name registered only as a temporary array is not
detected, and the property is added normally.) -/
theorem add_property_existing_property_noop (pa : ParticleArray)
    (info : PropInfo) (nm : String) (hn : info.name = some nm)
    (hp : (assocFind pa.properties nm).isSome) :
    pa.add_property info = (none, pa) := by
  unfold add_property
  rw [hn]
  simp [hp]

/-- C8 amended witness: re-adding the existing property "tag" with different
type, default and data is a no-op. -/
theorem add_property_existing_property_noop_witness :
    (emptyPA 0).add_property ⟨some "tag", some .double, some 3, some [1, 2]⟩ =
      (none, emptyPA 0) :=
  add_property_existing_property_noop (emptyPA 0)
    ⟨some "tag", some .double, some 3, some [1, 2]⟩ "tag" rfl (by decide)

/-- Removing an empty index list touches no column but still sets the dirty
flag (line `self.is_dirty = True` runs unconditionally). -/
theorem remove_particles_nil (pa : ParticleArray) :
    pa.remove_particles [] = (none, { pa with is_dirty := true }) := by
  have hmap : ∀ (l : List (String × Column)),
      l.map (fun q => (q.1, q.2.remove (List.insertionSort (· ≤ ·) []))) = l := by
    intro l
    induction l with
    | nil => rfl
    | cons a t ih =>
      show (a.1, a.2.remove []) :: _ = a :: t
      rw [ih]
      rfl
  unfold remove_particles
  rw [if_neg (by simp)]
  simp only [hmap]

/-- C6 counterexample: a clean (non-dirty) store whose two particles carry
tag 0; `remove_tagged_particles 5` matches no particle, returns normally,
and nevertheless flips the dirty flag to true. -/
theorem remove_tagged_dirty_counterexample :
    (∀ v ∈ ([0, 0] : List ℚ), v ≠ 5) ∧
    (ParticleArray.mk [("tag", ⟨.long, [0, 0]⟩)] [("tag", 0)] [] false).is_dirty
      = false ∧
    ((ParticleArray.mk [("tag", ⟨.long, [0, 0]⟩)] [("tag", 0)] []
        false).remove_tagged_particles 5).1 = none ∧
    ((ParticleArray.mk [("tag", ⟨.long, [0, 0]⟩)] [("tag", 0)] []
        false).remove_tagged_particles 5).2.is_dirty = true := by
  decide

/-- C6 amended: when no particle carries the tag, `remove_tagged_particles`
leaves every property and temporary column (and the defaults) unchanged, but
it does set the dirty flag unconditionally, because it delegates to
`remove_particles`, which always sets it. -/
theorem remove_tagged_no_match (pa : ParticleArray) (t : ℚ) (c : Column)
    (hc : assocFind pa.properties "tag" = some c)
    (hno : ∀ v ∈ c.vals, v ≠ t) :
    pa.remove_tagged_particles t = (none, { pa with is_dirty := true }) := by
  unfold remove_tagged_particles
  rw [hc]
  have hidx : (List.range c.vals.length).filter
      (fun i => decide (valAt c.vals i = t)) = [] := by
    rw [List.filter_eq_nil_iff]
    intro i hi
    have hlen : i < c.vals.length := List.mem_range.mp hi
    have hmem : valAt c.vals i ∈ c.vals := by
      unfold valAt
      rw [List.getElem?_eq_getElem hlen]
      exact List.getElem_mem hlen
    simpa using hno _ hmem
  simp only [hidx, remove_particles_nil]
  simp

/-- C6 amended witness: the concrete no-match call of the counterexample
returns the same store with only the dirty flag set. -/
theorem remove_tagged_no_match_witness :
    (ParticleArray.mk [("tag", ⟨.long, [0, 0]⟩)] [("tag", 0)] []
        false).remove_tagged_particles 5 =
      (none, ParticleArray.mk [("tag", ⟨.long, [0, 0]⟩)] [("tag", 0)] [] true) :=
  remove_tagged_no_match
    (ParticleArray.mk [("tag", ⟨.long, [0, 0]⟩)] [("tag", 0)] [] false) 5
    ⟨.long, [0, 0]⟩ (by decide) (by decide)

/-- C9: on a store with `N > 0` particles, `set` on a registered property
with an array whose length differs from N raises the size-mismatch error and
returns the store exactly unchanged (nothing is truncated or extended).
The strict-length `set_data` contract is modelled from the spec (the carray
layer is not under src/). -/
theorem set_length_mismatch (pa : ParticleArray) (nm : String) (arr : List ℚ)
    (c : Column) (hu : pa.uniform) (hn : 0 < pa.nparticles)
    (hc : assocFind pa.properties nm = some c)
    (hl : arr.length ≠ pa.nparticles) :
    pa.set [(nm, arr)] = (some "array size mismatch", pa) := by
  have hlen : c.vals.length = pa.nparticles := hu _ (assocFind_mem hc)
  have hsd : c.set_data arr = .error "array size mismatch" := by
    unfold Column.set_data
    rw [if_neg (by omega)]
  unfold set
  rw [if_neg (by simp [hc])]
  simp only [setLoop, setOne, hc, hsd]

/-- C9 witness: setting the length-2 column "x" with a length-3 array fails
and leaves the store untouched. -/
theorem set_length_mismatch_witness :
    (ParticleArray.mk [("x", ⟨.double, [1, 2]⟩)] [("x", 0)] [] true).set
        [("x", [1, 2, 3])] =
      (some "array size mismatch",
        ParticleArray.mk [("x", ⟨.double, [1, 2]⟩)] [("x", 0)] [] true) :=
  set_length_mismatch
    (ParticleArray.mk [("x", ⟨.double, [1, 2]⟩)] [("x", 0)] [] true)
    "x" [1, 2, 3] ⟨.double, [1, 2]⟩ (by decide) (by decide) (by decide)
    (by decide)

end ParticleArray

/-! ## Tail-swap compaction: what survives a removal -/

theorem length_tailSwapRemove (xs : List ℚ) (i : Nat) :
    (tailSwapRemove xs i).length =
      if i < xs.length then xs.length - 1 else xs.length := by
  unfold tailSwapRemove
  by_cases h : i < xs.length <;> simp [h]

theorem foldl_tailSwapRemove_length (js : List Nat) (xs : List ℚ) :
    (js.foldl tailSwapRemove xs).length =
      js.foldl (fun m i => if i < m then m - 1 else m) xs.length := by
  induction js generalizing xs with
  | nil => rfl
  | cons j t ih =>
    simp only [List.foldl_cons]
    rw [ih, length_tailSwapRemove]

/-- The length after a removal depends only on the input length and the
index list, not on the stored values. -/
theorem length_removeSorted (xs : List ℚ) (idxs : List Nat) :
    (removeSorted xs idxs).length =
      idxs.reverse.foldl (fun m i => if i < m then m - 1 else m) xs.length :=
  foldl_tailSwapRemove_length _ _

/-- Putting the last element back in front of `dropLast` permutes the list. -/
theorem last_cons_dropLast_perm :
    ∀ (l : List ℚ), l ≠ [] → (valAt l (l.length - 1) :: l.dropLast).Perm l
  | [], h => absurd rfl h
  | [a], _ => by simp [valAt]
  | a :: b :: t, _ => by
    have ih := last_cons_dropLast_perm (b :: t) (by simp)
    have h1 : valAt (a :: b :: t) ((a :: b :: t).length - 1) =
        valAt (b :: t) ((b :: t).length - 1) := by
      simp [valAt]
    have h2 : (a :: b :: t).dropLast = a :: (b :: t).dropLast := by
      simp
    rw [h1, h2]
    exact (List.Perm.swap a _ _).trans (ih.cons a)

/-- One tail-swap removal at an in-range index removes exactly the value at
that index, up to reordering. -/
theorem tailSwap_perm :
    ∀ (xs : List ℚ) (j : Nat), j < xs.length →
      (valAt xs j :: tailSwapRemove xs j).Perm xs
  | [], j, h => by simp at h
  | a :: t, 0, _ => by
    unfold tailSwapRemove
    rw [if_pos (by simp)]
    cases t with
    | nil => simp [valAt]
    | cons b t2 =>
      have hv : valAt (a :: b :: t2) ((a :: b :: t2).length - 1) =
          valAt (b :: t2) ((b :: t2).length - 1) := by simp [valAt]
      have hset : (a :: b :: t2).set 0
          (valAt (a :: b :: t2) ((a :: b :: t2).length - 1)) =
          valAt (b :: t2) ((b :: t2).length - 1) :: b :: t2 := by
        rw [hv]; rfl
      rw [hset]
      have hdl : (valAt (b :: t2) ((b :: t2).length - 1) :: b :: t2).dropLast =
          valAt (b :: t2) ((b :: t2).length - 1) :: (b :: t2).dropLast := by
        simp
      rw [hdl]
      have hv0 : valAt (a :: b :: t2) 0 = a := by simp [valAt]
      rw [hv0]
      exact ((last_cons_dropLast_perm (b :: t2) (by simp)).cons a)
  | a :: t, j + 1, h => by
    have hjt : j < t.length := by simpa using h
    have htne : t ≠ [] := by
      cases t
      · simp at hjt
      · simp
    unfold tailSwapRemove
    rw [if_pos h]
    have hv : valAt (a :: t) ((a :: t).length - 1) = valAt t (t.length - 1) := by
      cases t
      · simp at hjt
      · simp [valAt]
    have hset : (a :: t).set (j + 1) (valAt (a :: t) ((a :: t).length - 1)) =
        a :: t.set j (valAt t (t.length - 1)) := by
      rw [hv]; rfl
    rw [hset]
    have hsetne : t.set j (valAt t (t.length - 1)) ≠ [] := by
      cases t
      · simp at hjt
      · cases j <;> simp
    rw [List.dropLast_cons_of_ne_nil hsetne]
    have hvj : valAt (a :: t) (j + 1) = valAt t j := by simp [valAt]
    rw [hvj]
    have ih := tailSwap_perm t j hjt
    unfold tailSwapRemove at ih
    rw [if_pos hjt] at ih
    exact (List.Perm.swap a _ _).trans (ih.cons a)

theorem tailSwap_multiset (xs : List ℚ) (j : Nat) (h : j < xs.length) :
    (tailSwapRemove xs j : Multiset ℚ) + {valAt xs j} = (xs : Multiset ℚ) := by
  have hp : ((valAt xs j :: tailSwapRemove xs j : List ℚ) : Multiset ℚ) =
      (xs : Multiset ℚ) := Multiset.coe_eq_coe.mpr (tailSwap_perm xs j h)
  calc (tailSwapRemove xs j : Multiset ℚ) + {valAt xs j}
      = {valAt xs j} + (tailSwapRemove xs j : Multiset ℚ) := add_comm _ _
    _ = valAt xs j ::ₘ (tailSwapRemove xs j : Multiset ℚ) := Multiset.singleton_add _ _
    _ = ((valAt xs j :: tailSwapRemove xs j : List ℚ) : Multiset ℚ) :=
        Multiset.cons_coe _ _
    _ = (xs : Multiset ℚ) := hp

/-- A tail-swap at index `j` does not disturb the values at indices below
`j`. -/
theorem valAt_tailSwapRemove_lt (xs : List ℚ) (j i : Nat) (hij : i < j)
    (hj : j < xs.length) : valAt (tailSwapRemove xs j) i = valAt xs i := by
  unfold tailSwapRemove
  rw [if_pos hj]
  generalize valAt xs (xs.length - 1) = v
  have hlen : i < ((xs.set j v).dropLast).length := by
    simp only [List.length_dropLast, List.length_set]
    omega
  unfold valAt
  rw [List.getElem?_eq_getElem hlen,
    List.getElem?_eq_getElem (show i < xs.length by omega)]
  simp only [Option.getD_some]
  rw [List.getElem_dropLast]
  rw [List.getElem_set_ne (show j ≠ i by omega)]

/-- The survivor multiset of a sorted tail-swap removal: the removed values
(read off at the removal indices of the ORIGINAL list) plus the survivors
recover the original contents. -/
theorem removeSorted_multiset (idxs : List Nat) :
    ∀ (xs : List ℚ), idxs.Sorted (· < ·) → (∀ i ∈ idxs, i < xs.length) →
      (removeSorted xs idxs : Multiset ℚ) +
        (idxs.map (fun i => valAt xs i) : Multiset ℚ) = (xs : Multiset ℚ) := by
  induction idxs using List.reverseRecOn with
  | nil => intro xs _ _; simp [removeSorted]
  | append_singleton is j ih =>
    intro xs hs hr
    have hstep : removeSorted xs (is ++ [j]) =
        removeSorted (tailSwapRemove xs j) is := by
      unfold removeSorted
      rw [List.reverse_append]
      rfl
    have hj : j < xs.length := hr j (by simp)
    have hlt : ∀ i ∈ is, i < j := by
      intro i hi
      exact (List.pairwise_append.mp hs).2.2 i hi j (by simp)
    have hlen : (tailSwapRemove xs j).length = xs.length - 1 := by
      rw [length_tailSwapRemove, if_pos hj]
    have hr' : ∀ i ∈ is, i < (tailSwapRemove xs j).length := by
      intro i hi
      have := hlt i hi
      omega
    have hs' : is.Sorted (· < ·) := (List.pairwise_append.mp hs).1
    have hvals : is.map (fun i => valAt (tailSwapRemove xs j) i) =
        is.map (fun i => valAt xs i) :=
      List.map_congr_left (fun i hi => valAt_tailSwapRemove_lt xs j i (hlt i hi) hj)
    have ihy := ih (tailSwapRemove xs j) hs' hr'
    rw [hvals] at ihy
    have hmap : (((is ++ [j]).map (fun i => valAt xs i) : List ℚ) : Multiset ℚ)
        = ((is.map (fun i => valAt xs i) : List ℚ) : Multiset ℚ) + {valAt xs j} := by
      rw [List.map_append, ← Multiset.coe_add]
      simp
    rw [hstep, hmap, ← add_assoc, ihy]
    exact tailSwap_multiset xs j hj

theorem assocFind_map_snd {β γ : Type} (f : β → γ) (l : List (String × β))
    (k : String) :
    assocFind (l.map (fun q => (q.1, f q.2))) k = (assocFind l k).map f := by
  induction l with
  | nil => rfl
  | cons q t ih =>
    by_cases hk : q.1 = k
    · simp [assocFind, hk]
    · simp [assocFind, hk, ih]

namespace ParticleArray

/-- C5: a successful `remove_particles` call (distinct in-range indices, at
most N of them) returns without raising, and afterwards the multiset of
values of every property column equals the original multiset minus the values
that sat at the removed indices; the survivor order is not claimed.  The
tail-swap compaction itself is modelled from the spec (the carray layer is
not under src/). -/
theorem remove_particles_multiset (pa : ParticleArray) (index_list : List Nat)
    (hu : pa.uniform) (hnd : index_list.Nodup)
    (hr : ∀ i ∈ index_list, i < pa.nparticles)
    (hlen : index_list.length ≤ pa.nparticles) :
    (pa.remove_particles index_list).1 = none ∧
    ∀ (nm : String) (c c' : Column),
      assocFind pa.properties nm = some c →
      assocFind (pa.remove_particles index_list).2.properties nm = some c' →
      (c'.vals : Multiset ℚ) =
        (c.vals : Multiset ℚ) -
          (index_list.map (fun i => valAt c.vals i) : Multiset ℚ) := by
  have hguard : ¬ pa.nparticles < index_list.length := by omega
  have hres : pa.remove_particles index_list =
      (none, { pa with
        properties := pa.properties.map (fun q =>
          (q.1, q.2.remove (List.insertionSort (· ≤ ·) index_list)))
        temporary_arrays := pa.temporary_arrays.map (fun q =>
          (q.1, q.2.remove (List.insertionSort (· ≤ ·) index_list)))
        is_dirty := true }) := by
    unfold remove_particles
    rw [if_neg hguard]
  refine ⟨by rw [hres], ?_⟩
  intro nm c c' hc hc'
  rw [hres] at hc'
  simp only at hc'
  rw [assocFind_map_snd (fun b => b.remove (List.insertionSort (· ≤ ·) index_list))
    pa.properties nm] at hc'
  rw [hc] at hc'
  simp only [Option.map_some'] at hc'
  have hperm : (List.insertionSort (· ≤ ·) index_list).Perm index_list :=
    List.perm_insertionSort _ _
  have hnd' : (List.insertionSort (· ≤ ·) index_list).Nodup :=
    hperm.nodup_iff.mpr hnd
  have hsorted : (List.insertionSort (· ≤ ·) index_list).Sorted (· < ·) :=
    List.Sorted.lt_of_le (List.sorted_insertionSort _ _) hnd'
  have hclen : c.vals.length = pa.nparticles := hu _ (assocFind_mem hc)
  have hr' : ∀ i ∈ List.insertionSort (· ≤ ·) index_list, i < c.vals.length := by
    intro i hi
    rw [hclen]
    exact hr i (hperm.subset hi)
  have hmain := removeSorted_multiset _ c.vals hsorted hr'
  have hmapperm :
      (((List.insertionSort (· ≤ ·) index_list).map (fun i => valAt c.vals i) :
        List ℚ) : Multiset ℚ) =
      ((index_list.map (fun i => valAt c.vals i) : List ℚ) : Multiset ℚ) :=
    Multiset.coe_eq_coe.mpr (hperm.map _)
  rw [hmapperm] at hmain
  have hcv : c'.vals = removeSorted c.vals (List.insertionSort (· ≤ ·) index_list) := by
    have := Option.some.inj hc'
    rw [← this]
    rfl
  rw [hcv]
  exact eq_tsub_of_add_eq hmain

/-- C5 witness: removing indices 1 and 3 from the 4-particle store with
`x = [0,1,2,3]` succeeds; the surviving `x` column is `[0,2]`, whose
multiset is exactly the original multiset minus the removed values. -/
theorem remove_particles_multiset_witness :
    ((ParticleArray.mk [("x", ⟨.double, [0,1,2,3]⟩), ("tag", ⟨.long, [0,0,0,0]⟩)]
        [("x", 0), ("tag", 0)] [] true).remove_particles [1, 3]).1 = none ∧
    assocFind ((ParticleArray.mk [("x", ⟨.double, [0,1,2,3]⟩),
        ("tag", ⟨.long, [0,0,0,0]⟩)]
        [("x", 0), ("tag", 0)] [] true).remove_particles [1, 3]).2.properties "x"
      = some ⟨.double, [0, 2]⟩ ∧
    ((⟨.double, [0, 2]⟩ : Column).vals : Multiset ℚ) =
      (([0, 1, 2, 3] : List ℚ) : Multiset ℚ) -
        (([1, 3].map (fun i => valAt ([0, 1, 2, 3] : List ℚ) i) : List ℚ) :
          Multiset ℚ) :=
  ⟨(remove_particles_multiset
      (ParticleArray.mk [("x", ⟨.double, [0,1,2,3]⟩), ("tag", ⟨.long, [0,0,0,0]⟩)]
        [("x", 0), ("tag", 0)] [] true) [1, 3]
      (by decide) (by decide) (by decide) (by decide)).1,
   by decide,
   (remove_particles_multiset
      (ParticleArray.mk [("x", ⟨.double, [0,1,2,3]⟩), ("tag", ⟨.long, [0,0,0,0]⟩)]
        [("x", 0), ("tag", 0)] [] true) [1, 3]
      (by decide) (by decide) (by decide) (by decide)).2 "x"
      ⟨.double, [0,1,2,3]⟩ ⟨.double, [0, 2]⟩ (by decide) (by decide)⟩

end ParticleArray

/-! ## Shape lemmas for the N-invariant -/

theorem assocFind_append_left {β : Type} {l : List (String × β)}
    (l2 : List (String × β)) {k : String} {v : β}
    (h : assocFind l k = some v) : assocFind (l ++ l2) k = some v := by
  induction l with
  | nil => simp [assocFind] at h
  | cons q t ih =>
    obtain ⟨k', v'⟩ := q
    rw [List.cons_append]
    by_cases hk : k' = k
    · simp [assocFind, hk] at h ⊢
      exact h
    · simp only [assocFind, hk, if_neg, if_false] at h ⊢
      exact ih h

theorem assocFind_append_right {β : Type} {l : List (String × β)}
    (l2 : List (String × β)) {k : String}
    (h : assocFind l k = none) : assocFind (l ++ l2) k = assocFind l2 k := by
  induction l with
  | nil => rfl
  | cons q t ih =>
    obtain ⟨k', v'⟩ := q
    rw [List.cons_append]
    by_cases hk : k' = k
    · simp [assocFind, hk] at h
    · simp only [assocFind, hk, if_false] at h ⊢
      exact ih h

theorem assocFind_assocSet_ne {β : Type} {l : List (String × β)}
    {k k2 : String} (v : β) (h : k2 ≠ k) :
    assocFind (assocSet l k2 v) k = assocFind l k := by
  induction l with
  | nil => simp [assocSet, assocFind, h]
  | cons q t ih =>
    obtain ⟨k', v'⟩ := q
    by_cases hk : k' = k2
    · simp only [assocSet, hk, if_pos]
      simp [assocFind, h, fun hh : k2 = k => h hh]
    · simp only [assocSet, hk, if_false]
      by_cases hk2 : k' = k
      · simp [assocFind, hk2]
      · simp only [assocFind, hk2, if_false]
        exact ih

namespace ParticleArray

/-- Any store whose property columns all share one length satisfies the
N-invariant. -/
theorem uniform_mk {props : List (String × Column)}
    {dv : List (String × ℚ)} {ta : List (String × Column)} {dirty : Bool}
    (L : Nat) (h : ∀ q ∈ props, q.2.vals.length = L) :
    uniform ⟨props, dv, ta, dirty⟩ := by
  intro q hq
  cases props with
  | nil => simp at hq
  | cons p t =>
    show q.2.vals.length = p.2.vals.length
    rw [h q hq, h p (by simp)]

/-- The particle-count and the N-invariant only depend on the per-column
lengths. -/
def shape (pa : ParticleArray) : List (String × Nat) :=
  pa.properties.map (fun q => (q.1, q.2.vals.length))

theorem nparticles_eq_of_shape {pa pa' : ParticleArray}
    (h : shape pa' = shape pa) : pa'.nparticles = pa.nparticles := by
  unfold shape at h
  unfold nparticles
  cases hp : pa.properties with
  | nil =>
    rw [hp] at h
    simp at h
    rw [h]
  | cons p t =>
    rw [hp] at h
    cases hp' : pa'.properties with
    | nil =>
      rw [hp'] at h
      simp at h
    | cons p' t' =>
      rw [hp'] at h
      simp only [List.map_cons, List.cons.injEq, Prod.mk.injEq] at h
      exact h.1.2

theorem uniform_of_shape_eq {pa pa' : ParticleArray}
    (h : shape pa' = shape pa) (hu : pa.uniform) : pa'.uniform := by
  intro q hq
  rw [nparticles_eq_of_shape h]
  have hmem : (q.1, q.2.vals.length) ∈ shape pa := by
    rw [← h]
    unfold shape
    exact List.mem_map_of_mem _ hq
  unfold shape at hmem
  rw [List.mem_map] at hmem
  obtain ⟨q', hq', heq⟩ := hmem
  have := hu q' hq'
  rw [← this]
  exact (Prod.mk.injEq _ _ _ _ ▸ heq).2.symm

/-! ### Branch equations for add_property -/

/-- A name already registered as a property: warning and return, no change. -/
theorem add_property_eq_noop (pa : ParticleArray) (info : PropInfo)
    (nm : String) (hn : info.name = some nm)
    (hfind : (assocFind pa.properties nm).isSome) :
    pa.add_property info = (none, pa) := by
  unfold add_property
  rw [hn]
  simp [hfind]

/-- Empty store, no (or empty) initial data: a zero-length column is
attached. -/
theorem add_property_eq_empty_nodata (pa : ParticleArray) (nm : String)
    (tp : Option DataType) (d : Option ℚ) (dat : Option (List ℚ))
    (hfind : assocFind pa.properties nm = none)
    (h0 : pa.nparticles = 0)
    (hdat : (dat.getD []).isEmpty) :
    pa.add_property ⟨some nm, tp, d, dat⟩ =
      (none, ⟨pa.properties ++ [(nm, _create_carray tp 0 (d.getD 0))],
        assocSet pa.default_values nm (d.getD 0),
        pa.temporary_arrays, pa.is_dirty⟩) := by
  unfold add_property
  cases dat with
  | none => simp [hfind, h0]
  | some l =>
    have hl : l = [] := by simpa using hdat
    subst hl
    simp [hfind, h0]

/-- Empty store, nonempty untyped data, all defaults present: every existing
property is resized to the data length and overwritten with its default,
then the data is attached as a DoubleArray. -/
theorem add_property_eq_backfill (pa : ParticleArray) (nm : String)
    (d : Option ℚ) (a : ℚ) (t : List ℚ)
    (hfind : assocFind pa.properties nm = none)
    (h0 : pa.nparticles = 0)
    (hchk : pa.properties.all (fun q =>
      (assocFind (assocSet pa.default_values nm (d.getD 0)) q.1).isSome)) :
    pa.add_property ⟨some nm, none, d, some (a :: t)⟩ =
      (none, ⟨pa.properties.map (fun q =>
          (q.1, (q.2.resize (a :: t).length).fillAll
            ((assocFind (assocSet pa.default_values nm (d.getD 0)) q.1).getD 0)))
          ++ [(nm, ⟨.double, a :: t⟩)],
        assocSet pa.default_values nm (d.getD 0),
        pa.temporary_arrays, pa.is_dirty⟩) := by
  unfold add_property
  simp [hfind, h0, hchk]

/-- Empty store, nonempty untyped data, some default missing: the backfill
loop raises a KeyError (modelled up front). -/
theorem add_property_eq_backfill_keyerror (pa : ParticleArray) (nm : String)
    (d : Option ℚ) (a : ℚ) (t : List ℚ)
    (hfind : assocFind pa.properties nm = none)
    (h0 : pa.nparticles = 0)
    (hchk : ¬ pa.properties.all (fun q =>
      (assocFind (assocSet pa.default_values nm (d.getD 0)) q.1).isSome)) :
    (pa.add_property ⟨some nm, none, d, some (a :: t)⟩).1.isSome := by
  unfold add_property
  simp [hfind, h0, hchk]

/-- Empty store, nonempty TYPED data: the call raises (a TypeError from the
missing call parentheses on `get_npy_array`, or a KeyError from the backfill
loop first); it never returns normally. -/
theorem add_property_eq_empty_typed_data (pa : ParticleArray) (nm : String)
    (tp : DataType) (d : Option ℚ) (a : ℚ) (t : List ℚ)
    (hfind : assocFind pa.properties nm = none)
    (h0 : pa.nparticles = 0) :
    (pa.add_property ⟨some nm, some tp, d, some (a :: t)⟩).1.isSome := by
  unfold add_property
  by_cases hchk : pa.properties.all (fun q =>
      (assocFind (assocSet pa.default_values nm (d.getD 0)) q.1).isSome)
  · simp [hfind, h0, hchk]
  · simp [hfind, h0, hchk]

/-- Empty store, nonempty TYPED data, defaults all present: the raised error
is exactly the TypeError of the missing call parentheses, and it strikes
AFTER the pre-existing properties were resized and backfilled (the store is
left mutated behind the exception). -/
theorem add_property_eq_empty_typed_data_typeerror (pa : ParticleArray)
    (nm : String) (tp : DataType) (d : Option ℚ) (a : ℚ) (t : List ℚ)
    (hfind : assocFind pa.properties nm = none)
    (h0 : pa.nparticles = 0)
    (hchk : pa.properties.all (fun q =>
      (assocFind (assocSet pa.default_values nm (d.getD 0)) q.1).isSome)) :
    pa.add_property ⟨some nm, some tp, d, some (a :: t)⟩ =
      (some "TypeError: builtin_function_or_method object does not support item assignment",
        ⟨pa.properties.map (fun q =>
          (q.1, (q.2.resize (a :: t).length).fillAll
            ((assocFind (assocSet pa.default_values nm (d.getD 0)) q.1).getD 0)))
          , assocSet pa.default_values nm (d.getD 0),
        pa.temporary_arrays, pa.is_dirty⟩) := by
  unfold add_property
  simp [hfind, h0, hchk]

/-- Populated store, no (or empty) initial data: a default-filled column of
the current length is attached. -/
theorem add_property_eq_pos_nodata (pa : ParticleArray) (nm : String)
    (tp : Option DataType) (d : Option ℚ) (dat : Option (List ℚ))
    (hfind : assocFind pa.properties nm = none)
    (h0 : pa.nparticles ≠ 0)
    (hdat : (dat.getD []).isEmpty) :
    pa.add_property ⟨some nm, tp, d, dat⟩ =
      (none, ⟨pa.properties ++ [(nm, _create_carray tp pa.nparticles (d.getD 0))],
        assocSet pa.default_values nm (d.getD 0),
        pa.temporary_arrays, pa.is_dirty⟩) := by
  unfold add_property
  cases dat with
  | none => simp [hfind, h0]
  | some l =>
    have hl : l = [] := by simpa using hdat
    subst hl
    simp [hfind, h0]

/-- Populated store, nonempty data of matching length: the data column is
attached (as a DoubleArray when no type is given, as the requested typed
array otherwise). -/
theorem add_property_eq_pos_data (pa : ParticleArray) (nm : String)
    (tp : Option DataType) (d : Option ℚ) (a : ℚ) (t : List ℚ)
    (hfind : assocFind pa.properties nm = none)
    (h0 : pa.nparticles ≠ 0)
    (hlen : (a :: t).length = pa.nparticles) :
    pa.add_property ⟨some nm, tp, d, some (a :: t)⟩ =
      (none, ⟨pa.properties ++
          [(nm, ⟨(match tp with | none => DataType.double | some ty => ty), a :: t⟩)],
        assocSet pa.default_values nm (d.getD 0),
        pa.temporary_arrays, pa.is_dirty⟩) := by
  unfold add_property
  cases tp with
  | none => simp [hfind, h0, hlen.symm]
  | some ty => simp [hfind, h0, hlen.symm]

/-- Populated store, nonempty data of the wrong length: size mismatch. -/
theorem add_property_eq_pos_data_mismatch (pa : ParticleArray) (nm : String)
    (tp : Option DataType) (d : Option ℚ) (a : ℚ) (t : List ℚ)
    (hfind : assocFind pa.properties nm = none)
    (h0 : pa.nparticles ≠ 0)
    (hlen : (a :: t).length ≠ pa.nparticles) :
    pa.add_property ⟨some nm, tp, d, some (a :: t)⟩ =
      (some "Array sizes incompatible", pa) := by
  have hlen2 : ¬ (pa.nparticles = t.length + 1) := by
    intro h
    exact hlen (by simpa using h.symm)
  unfold add_property
  simp [hfind, h0, hlen2]

/-- A successful `add_property` call preserves the N-invariant, and keeps
`tag` as the first property when it was first before. -/
theorem add_property_invariants (pa : ParticleArray) (info : PropInfo)
    (pa' : ParticleArray) (hu : pa.uniform)
    (hok : pa.add_property info = (none, pa')) :
    pa'.uniform ∧
    (∀ c, pa.properties.head? = some ("tag", c) →
      ∃ c', pa'.properties.head? = some ("tag", c')) := by
  cases hn : info.name with
  | none =>
    unfold add_property at hok
    rw [hn] at hok
    have h1 := congrArg Prod.fst hok
    simp at h1
  | some nm =>
    by_cases hfind : (assocFind pa.properties nm).isSome
    · rw [add_property_eq_noop pa info nm hn hfind] at hok
      have h2 := congrArg Prod.snd hok
      simp only at h2
      subst h2
      exact ⟨hu, fun c hc => ⟨c, hc⟩⟩
    · have hfind' : assocFind pa.properties nm = none := by
        cases h : assocFind pa.properties nm
        · rfl
        · rw [h] at hfind
          simp at hfind
      obtain ⟨nme, tp, df, dat⟩ := info
      simp only at hn
      subst hn
      by_cases h0 : pa.nparticles = 0
      · -- empty store
        rcases hdat : dat with - | l
        · subst hdat
          rw [add_property_eq_empty_nodata pa nm tp df none hfind' h0 (by simp)] at hok
          have h2 := congrArg Prod.snd hok
          simp only at h2
          subst h2
          constructor
          · apply uniform_mk 0
            intro q hq
            rw [List.mem_append] at hq
            rcases hq with hq | hq
            · rw [hu q hq, h0]
            · simp at hq
              subst hq
              simp [_create_carray]
          · intro c hc
            cases hp : pa.properties with
            | nil => rw [hp] at hc; simp at hc
            | cons p rest =>
              obtain ⟨pk, pc⟩ := p
              rw [hp] at hc
              simp at hc
              obtain ⟨hc1, -⟩ := hc
              subst hc1
              exact ⟨_, rfl⟩
        · subst hdat
          cases l with
          | nil =>
            rw [add_property_eq_empty_nodata pa nm tp df (some []) hfind' h0 (by simp)] at hok
            have h2 := congrArg Prod.snd hok
            simp only at h2
            subst h2
            constructor
            · apply uniform_mk 0
              intro q hq
              rw [List.mem_append] at hq
              rcases hq with hq | hq
              · rw [hu q hq, h0]
              · simp at hq
                subst hq
                simp [_create_carray]
            · intro c hc
              cases hp : pa.properties with
              | nil => rw [hp] at hc; simp at hc
              | cons p rest =>
                obtain ⟨pk, pc⟩ := p
                rw [hp] at hc
                simp at hc
                obtain ⟨hc1, -⟩ := hc
                subst hc1
                exact ⟨_, rfl⟩
          | cons a t =>
            cases tp with
            | some ty =>
              have hs := add_property_eq_empty_typed_data pa nm ty df a t hfind' h0
              have h1 := congrArg Prod.fst hok
              simp only at h1
              rw [h1] at hs
              simp at hs
            | none =>
              by_cases hchk : pa.properties.all (fun q =>
                  (assocFind (assocSet pa.default_values nm (df.getD 0)) q.1).isSome)
              · rw [add_property_eq_backfill pa nm df a t hfind' h0 hchk] at hok
                have h2 := congrArg Prod.snd hok
                simp only at h2
                subst h2
                constructor
                · apply uniform_mk (a :: t).length
                  intro q hq
                  rw [List.mem_append] at hq
                  rcases hq with hq | hq
                  · rw [List.mem_map] at hq
                    obtain ⟨q', _, rfl⟩ := hq
                    simp [Column.length_fillAll, Column.length_resize]
                  · simp at hq
                    subst hq
                    rfl
                · intro c hc
                  cases hp : pa.properties with
                  | nil => rw [hp] at hc; simp at hc
                  | cons p rest =>
                    obtain ⟨pk, pc⟩ := p
                    rw [hp] at hc
                    simp at hc
                    obtain ⟨hc1, -⟩ := hc
                    subst hc1
                    exact ⟨_, rfl⟩
              · have hs := add_property_eq_backfill_keyerror pa nm df a t hfind' h0 hchk
                have h1 := congrArg Prod.fst hok
                simp only at h1
                rw [h1] at hs
                simp at hs
      · -- populated store
        rcases hdat : dat with - | l
        · subst hdat
          rw [add_property_eq_pos_nodata pa nm tp df none hfind' h0 (by simp)] at hok
          have h2 := congrArg Prod.snd hok
          simp only at h2
          subst h2
          constructor
          · apply uniform_mk pa.nparticles
            intro q hq
            rw [List.mem_append] at hq
            rcases hq with hq | hq
            · exact hu q hq
            · simp at hq
              subst hq
              simp [_create_carray]
          · intro c hc
            cases hp : pa.properties with
            | nil => rw [hp] at hc; simp at hc
            | cons p rest =>
              obtain ⟨pk, pc⟩ := p
              rw [hp] at hc
              simp at hc
              obtain ⟨hc1, -⟩ := hc
              subst hc1
              exact ⟨_, rfl⟩
        · subst hdat
          cases l with
          | nil =>
            rw [add_property_eq_pos_nodata pa nm tp df (some []) hfind' h0 (by simp)] at hok
            have h2 := congrArg Prod.snd hok
            simp only at h2
            subst h2
            constructor
            · apply uniform_mk pa.nparticles
              intro q hq
              rw [List.mem_append] at hq
              rcases hq with hq | hq
              · exact hu q hq
              · simp at hq
                subst hq
                simp [_create_carray]
            · intro c hc
              cases hp : pa.properties with
              | nil => rw [hp] at hc; simp at hc
              | cons p rest =>
                obtain ⟨pk, pc⟩ := p
                rw [hp] at hc
                simp at hc
                obtain ⟨hc1, -⟩ := hc
                subst hc1
                exact ⟨_, rfl⟩
          | cons a t =>
            by_cases hlen : (a :: t).length = pa.nparticles
            · rw [add_property_eq_pos_data pa nm tp df a t hfind' h0 hlen] at hok
              have h2 := congrArg Prod.snd hok
              simp only at h2
              subst h2
              constructor
              · apply uniform_mk pa.nparticles
                intro q hq
                rw [List.mem_append] at hq
                rcases hq with hq | hq
                · exact hu q hq
                · simp at hq
                  subst hq
                  exact hlen
              · intro c hc
                cases hp : pa.properties with
                | nil => rw [hp] at hc; simp at hc
                | cons p rest =>
                  obtain ⟨pk, pc⟩ := p
                  rw [hp] at hc
                  simp at hc
                  obtain ⟨hc1, -⟩ := hc
                  subst hc1
                  exact ⟨_, rfl⟩
            · rw [add_property_eq_pos_data_mismatch pa nm tp df a t hfind' h0 hlen] at hok
              have h1 := congrArg Prod.fst hok
              simp at h1

/-- A successful `remove_particles` call preserves the N-invariant: every
column of a uniform store is compacted by the same index set, and the
resulting length depends only on the input length. -/
theorem uniform_remove_particles (pa : ParticleArray) (idxs : List Nat)
    (pa' : ParticleArray) (hu : pa.uniform)
    (hok : pa.remove_particles idxs = (none, pa')) : pa'.uniform := by
  unfold remove_particles at hok
  by_cases hg : pa.nparticles < idxs.length
  · rw [if_pos hg] at hok
    have h1 := congrArg Prod.fst hok
    simp at h1
  · rw [if_neg hg] at hok
    have h2 := congrArg Prod.snd hok
    simp only at h2
    subst h2
    apply uniform_mk ((List.insertionSort (· ≤ ·) idxs).reverse.foldl
      (fun m i => if i < m then m - 1 else m) pa.nparticles)
    intro q hq
    rw [List.mem_map] at hq
    obtain ⟨q', hq', rfl⟩ := hq
    show (removeSorted q'.2.vals _).length = _
    rw [length_removeSorted, hu q' hq']

/-- A successful `extend` call preserves the N-invariant. -/
theorem uniform_extend (pa : ParticleArray) (num : Int)
    (pa' : ParticleArray) (hu : pa.uniform)
    (hok : pa.extend num = (none, pa')) : pa'.uniform := by
  unfold extend at hok
  by_cases h0 : num ≤ 0
  · rw [if_pos h0] at hok
    have h2 := congrArg Prod.snd hok
    simp only at h2
    subst h2
    exact hu
  · rw [if_neg h0] at hok
    by_cases hchk : pa.properties.all (fun q => (assocFind pa.default_values q.1).isSome)
    · rw [if_neg (by simp [hchk])] at hok
      have h2 := congrArg Prod.snd hok
      simp only at h2
      subst h2
      apply uniform_mk (pa.nparticles + num.toNat)
      intro q hq
      rw [List.mem_map] at hq
      obtain ⟨q', hq', rfl⟩ := hq
      show ((q'.2.resize _).fillFrom _ _).vals.length = _
      rw [Column.length_fillFrom, Column.length_resize]
    · rw [if_pos (by simp [hchk])] at hok
      have h1 := congrArg Prod.fst hok
      simp at h1

/-- `add_particles` with an unknown batch name raises before mutating. -/
theorem add_particles_eq_err_names (pa : ParticleArray) (k0 : String)
    (v0 : List ℚ) (bt : List (String × List ℚ))
    (hc1 : ¬ ((k0, v0) :: bt).all (fun b =>
      (assocFind pa.properties b.1).isSome ||
      (assocFind pa.temporary_arrays b.1).isSome)) :
    pa.add_particles ((k0, v0) :: bt) = (some "property not present", pa) := by
  unfold add_particles
  simp [hc1]

/-- `add_particles` with a missing default for an unsupplied property raises
(the KeyError of the backfill loop, modelled up front). -/
theorem add_particles_eq_err_defaults (pa : ParticleArray) (k0 : String)
    (v0 : List ℚ) (bt : List (String × List ℚ))
    (hc1 : ((k0, v0) :: bt).all (fun b =>
      (assocFind pa.properties b.1).isSome ||
      (assocFind pa.temporary_arrays b.1).isSome))
    (hc2 : ¬ pa.properties.all (fun q =>
      (assocFind ((k0, v0) :: bt) q.1).isSome ||
      (assocFind pa.default_values q.1).isSome)) :
    pa.add_particles ((k0, v0) :: bt) = (some "KeyError", pa) := by
  unfold add_particles
  simp [hc1, hc2]

/-- The successful branch of `add_particles`, as an equation. -/
theorem add_particles_eq_success (pa : ParticleArray) (k0 : String)
    (v0 : List ℚ) (bt : List (String × List ℚ))
    (hc1 : ((k0, v0) :: bt).all (fun b =>
      (assocFind pa.properties b.1).isSome ||
      (assocFind pa.temporary_arrays b.1).isSome))
    (hc2 : pa.properties.all (fun q =>
      (assocFind ((k0, v0) :: bt) q.1).isSome ||
      (assocFind pa.default_values q.1).isSome)) :
    pa.add_particles ((k0, v0) :: bt) =
      (none, ⟨pa.properties.map (fun q =>
          match assocFind ((k0, v0) :: bt) q.1 with
          | some vs => (q.1, q.2.extendVals vs)
          | none => (q.1, (q.2.resize (v0.length + pa.nparticles)).fillFrom
              pa.nparticles ((assocFind pa.default_values q.1).getD 0))),
        pa.default_values,
        pa.temporary_arrays.map (fun q =>
          (q.1, q.2.resize (v0.length + pa.nparticles))),
        if 0 < v0.length then true else pa.is_dirty⟩) := by
  unfold add_particles
  simp [hc1, hc2]

/-- A successful `add_particles` call whose batches all share one length
preserves the N-invariant. -/
theorem uniform_add_particles (pa : ParticleArray)
    (batches : List (String × List ℚ)) (pa' : ParticleArray) (hu : pa.uniform)
    (heq : ∀ b1 ∈ batches, ∀ b2 ∈ batches, b1.2.length = b2.2.length)
    (hok : pa.add_particles batches = (none, pa')) : pa'.uniform := by
  cases batches with
  | nil =>
    unfold add_particles at hok
    have h2 := congrArg Prod.snd hok
    simp only at h2
    subst h2
    exact hu
  | cons b0 bt =>
    obtain ⟨k0, v0⟩ := b0
    by_cases hc1 : ((k0, v0) :: bt).all (fun b =>
        (assocFind pa.properties b.1).isSome ||
        (assocFind pa.temporary_arrays b.1).isSome)
    · by_cases hc2 : pa.properties.all (fun q =>
          (assocFind ((k0, v0) :: bt) q.1).isSome ||
          (assocFind pa.default_values q.1).isSome)
      · rw [add_particles_eq_success pa k0 v0 bt hc1 hc2] at hok
        have h2 := congrArg Prod.snd hok
        simp only at h2
        subst h2
        apply uniform_mk (v0.length + pa.nparticles)
        intro q hq
        rw [List.mem_map] at hq
        obtain ⟨q', hq', rfl⟩ := hq
        cases hfind : assocFind ((k0, v0) :: bt) q'.1 with
        | some vs =>
          simp only [hfind]
          show (q'.2.extendVals vs).vals.length = _
          rw [Column.length_extendVals, hu q' hq']
          have hvs : vs.length = v0.length :=
            heq (q'.1, vs) (assocFind_mem hfind) (k0, v0) (List.mem_cons_self _ _)
          omega
        | none =>
          simp only [hfind]
          show ((q'.2.resize _).fillFrom _ _).vals.length = _
          rw [Column.length_fillFrom, Column.length_resize]
      · rw [add_particles_eq_err_defaults pa k0 v0 bt hc1 hc2] at hok
        have h1 := congrArg Prod.fst hok
        simp at h1
    · rw [add_particles_eq_err_names pa k0 v0 bt hc1] at hok
      have h1 := congrArg Prod.fst hok
      simp at h1

/-- Updating a registered key with a column of the same length does not
change the shape of an association list. -/
theorem assocSet_shape_eq {l : List (String × Column)} {k : String}
    {c c' : Column} (hfind : assocFind l k = some c)
    (hlen : c'.vals.length = c.vals.length) :
    (assocSet l k c').map (fun q => (q.1, q.2.vals.length)) =
      l.map (fun q => (q.1, q.2.vals.length)) := by
  induction l with
  | nil => simp [assocFind] at hfind
  | cons p t ih =>
    obtain ⟨pk, pc⟩ := p
    by_cases hk : pk = k
    · subst hk
      simp only [assocFind, if_pos] at hfind
      simp only [assocSet, if_pos]
      simp only [List.map_cons]
      have hc : pc = c := by simpa using hfind
      subst hc
      rw [hlen]
    · simp only [assocFind, hk, if_false] at hfind
      simp only [assocSet, hk, if_false, List.map_cons]
      rw [ih hfind]

/-- One `set` assignment never changes the shape of the property table. -/
theorem setOne_shape (pa : ParticleArray) (k : String) (arr : List ℚ)
    (err : Option String) (pa' : ParticleArray)
    (h : setOne pa k arr = (err, pa')) : shape pa' = shape pa := by
  unfold setOne at h
  cases hf : assocFind pa.properties k with
  | some c =>
    cases hsd : c.set_data arr with
    | error e =>
      simp only [hf, hsd] at h
      have h2 := congrArg Prod.snd h
      simp only at h2
      subst h2
      rfl
    | ok c' =>
      simp only [hf, hsd] at h
      have h2 := congrArg Prod.snd h
      simp only at h2
      subst h2
      exact assocSet_shape_eq hf (Column.set_data_ok_length hsd)
  | none =>
    cases hft : assocFind pa.temporary_arrays k with
    | some c =>
      cases hsd : c.set_data arr with
      | error e =>
        simp only [hf, hft, hsd] at h
        have h2 := congrArg Prod.snd h
        simp only at h2
        subst h2
        rfl
      | ok c' =>
        simp only [hf, hft, hsd] at h
        have h2 := congrArg Prod.snd h
        simp only at h2
        subst h2
        rfl
    | none =>
      simp only [hf, hft] at h
      have h2 := congrArg Prod.snd h
      simp only at h2
      subst h2
      rfl

theorem setLoop_shape :
    ∀ (props : List (String × List ℚ)) (pa : ParticleArray)
      (err : Option String) (pa' : ParticleArray),
      setLoop pa props = (err, pa') → shape pa' = shape pa := by
  intro props
  induction props with
  | nil =>
    intro pa err pa' h
    unfold setLoop at h
    have h2 := congrArg Prod.snd h
    simp only at h2
    subst h2
    rfl
  | cons e rest ih =>
    intro pa err pa' h
    obtain ⟨k, arr⟩ := e
    unfold setLoop at h
    rcases hso : setOne pa k arr with ⟨o, pa1⟩
    cases o with
    | some msg =>
      simp only [hso] at h
      have h2 := congrArg Prod.snd h
      simp only at h2
      subst h2
      exact setOne_shape pa k arr _ _ hso
    | none =>
      simp only [hso] at h
      exact (ih pa1 err pa' h).trans (setOne_shape pa k arr _ _ hso)

/-- A successful `set` call preserves the N-invariant (every overwrite is
length checked, so no column changes length). -/
theorem uniform_set (pa : ParticleArray) (props : List (String × List ℚ))
    (pa' : ParticleArray) (hu : pa.uniform)
    (hok : pa.set props = (none, pa')) : pa'.uniform := by
  unfold set at hok
  by_cases hchk : props.all (fun q => (assocFind pa.properties q.1).isSome ||
      (assocFind pa.temporary_arrays q.1).isSome)
  · rw [if_neg (by simp [hchk])] at hok
    exact uniform_of_shape_eq (setLoop_shape props pa none pa' hok) hu
  · rw [if_pos (by simp [hchk])] at hok
    have h1 := congrArg Prod.fst hok
    simp at h1

/-- The cleared store satisfies the N-invariant. -/
theorem uniform_clear (pa : ParticleArray) : pa.clear.uniform := by
  apply uniform_mk 0
  intro q hq
  simp only [clear] at hq
  simp at hq
  rw [hq]
  rfl

/-- A successful pass of the per-property loop of `initialize` preserves the
N-invariant and keeps `tag` as the first property. -/
theorem initLoop_invariants :
    ∀ (props : List (String × PropInfo)) (pa pa' : ParticleArray),
      pa.uniform → initLoop pa props = (none, pa') →
      pa'.uniform ∧ (∀ c, pa.properties.head? = some ("tag", c) →
        ∃ c', pa'.properties.head? = some ("tag", c')) := by
  intro props
  induction props with
  | nil =>
    intro pa pa' hu hok
    unfold initLoop at hok
    have h2 := congrArg Prod.snd hok
    simp only at h2
    subst h2
    exact ⟨hu, fun c hc => ⟨c, hc⟩⟩
  | cons e rest ih =>
    intro pa pa' hu hok
    obtain ⟨nm, info⟩ := e
    unfold initLoop at hok
    by_cases hf : (assocFind pa.properties nm).isSome
    · rw [if_pos hf] at hok
      have h1 := congrArg Prod.fst hok
      simp at h1
    · rw [if_neg hf] at hok
      rcases hap : pa.add_property ⟨some nm, info.type, info.dflt, info.data⟩
        with ⟨o, pa1⟩
      cases o with
      | some msg =>
        simp only [hap] at hok
        have h1 := congrArg Prod.fst hok
        simp at h1
      | none =>
        simp only [hap] at hok
        have hinv := add_property_invariants pa _ pa1 hu hap
        have hrest := ih pa1 pa' hinv.1 hok
        refine ⟨hrest.1, fun c hc => ?_⟩
        obtain ⟨c1, hc1⟩ := hinv.2 c hc
        exact hrest.2 c1 hc1

/-- A successful `initialize` call (clear, install the given properties,
backfill the tag) leaves the store satisfying the N-invariant. -/
theorem uniform_initWithProps (pa : ParticleArray)
    (props : List (String × PropInfo)) (pa' : ParticleArray)
    (hok : pa.initWithProps props = (none, pa')) : pa'.uniform := by
  unfold initWithProps at hok
  by_cases hemp : props.isEmpty
  · rw [if_pos hemp] at hok
    have h2 := congrArg Prod.snd hok
    simp only at h2
    subst h2
    exact uniform_clear pa
  · rw [if_neg hemp] at hok
    cases hft : assocFind props "tag" with
    | some ti =>
      cases htd : ti.data with
      | none =>
        simp only [hft, htd] at hok
        have h1 := congrArg Prod.fst hok
        simp at h1
      | some d =>
        simp only [hft, htd] at hok
        have hpr : assocSet pa.clear.properties "tag" (⟨.long, d⟩ : Column) =
            [("tag", (⟨.long, d⟩ : Column))] := by
          show assocSet [("tag", (⟨.long, []⟩ : Column))] "tag" _ = _
          simp [assocSet]
        rw [hpr] at hok
        have hu1 : uniform ⟨[("tag", (⟨.long, d⟩ : Column))],
            pa.clear.default_values, pa.clear.temporary_arrays,
            pa.clear.is_dirty⟩ := by
          apply uniform_mk d.length
          intro q hq
          simp at hq
          rw [hq]
        exact (initLoop_invariants _ _ _ hu1 hok).1
    | none =>
      simp only [hft] at hok
      rcases hil : initLoop pa.clear props with ⟨o, pa1⟩
      cases o with
      | some msg =>
        simp only [hil] at hok
        have h1 := congrArg Prod.fst hok
        simp at h1
      | none =>
        simp only [hil] at hok
        have hinv := initLoop_invariants props pa.clear pa1 (uniform_clear pa) hil
        obtain ⟨c1, hc1⟩ := hinv.2 ⟨.long, []⟩ rfl
        by_cases hnp : 0 < pa1.nparticles
        · rw [if_pos hnp] at hok
          obtain ⟨rest, hrest⟩ : ∃ rest, pa1.properties = ("tag", c1) :: rest := by
            cases hpp : pa1.properties with
            | nil =>
              rw [hpp] at hc1
              simp at hc1
            | cons p r =>
              rw [hpp] at hc1
              simp at hc1
              exact ⟨r, by rw [hc1]⟩
          have hfp : assocFind pa1.properties "tag" = some c1 := by
            rw [hrest]
            simp [assocFind]
          cases hdt : assocFind pa1.default_values "tag" with
          | none =>
            simp only [hdt, hfp] at hok
            have h1 := congrArg Prod.fst hok
            simp at h1
          | some dtag =>
            simp only [hdt, hfp] at hok
            have h2 := congrArg Prod.snd hok
            simp only at h2
            subst h2
            apply uniform_mk pa1.nparticles
            intro q hq
            rcases mem_assocSet hq with hq1 | hq1
            · rw [hq1]
              show ((c1.resize pa1.nparticles).fillAll dtag).vals.length = _
              rw [Column.length_fillAll, Column.length_resize]
            · exact hinv.1 q hq1
        · rw [if_neg hnp] at hok
          have h2 := congrArg Prod.snd hok
          simp only at h2
          subst h2
          exact hinv.1

/-- C3 counterexample: `add_particles` does not validate that its batches
have equal lengths.  On a uniform 2-particle store with properties `tag`,
`x`, `y`, supplying batches `x := [10,11]` (length 2) and `y := [20]`
(length 1) returns WITHOUT raising, yet afterwards the property columns have
different lengths: the N-invariant is broken by a successful call. -/
theorem add_particles_unequal_batches_counterexample :
    (ParticleArray.mk [("tag", ⟨.long, [5, 5]⟩), ("x", ⟨.double, [1, 2]⟩),
        ("y", ⟨.double, [3, 4]⟩)] [("tag", 0), ("x", 0), ("y", 0)] []
        false).uniform ∧
    ((ParticleArray.mk [("tag", ⟨.long, [5, 5]⟩), ("x", ⟨.double, [1, 2]⟩),
        ("y", ⟨.double, [3, 4]⟩)] [("tag", 0), ("x", 0), ("y", 0)] []
        false).add_particles [("x", [10, 11]), ("y", [20])]).1 = none ∧
    ¬ ((ParticleArray.mk [("tag", ⟨.long, [5, 5]⟩), ("x", ⟨.double, [1, 2]⟩),
        ("y", ⟨.double, [3, 4]⟩)] [("tag", 0), ("x", 0), ("y", 0)] []
        false).add_particles [("x", [10, 11]), ("y", [20])]).2.uniform := by
  decide

/-- C3 amended: after every successful mutating call the property columns all
share one length, PROVIDED the `add_particles` batches all have one common
length (the code does not check this; unequal batches succeed and break the
invariant, see the counterexample).  The remaining case named by the original
claim -- `add_property` with explicit data and type on an empty store -- never
returns successfully: the missing call parentheses on `get_npy_array` raise a
TypeError, so it is vacuous here. -/
theorem n_invariant_after_mutations :
    (∀ (pa : ParticleArray) (info : PropInfo) (pa' : ParticleArray),
      pa.uniform → pa.add_property info = (none, pa') → pa'.uniform) ∧
    (∀ (pa : ParticleArray) (batches : List (String × List ℚ))
        (pa' : ParticleArray),
      pa.uniform → (∀ b1 ∈ batches, ∀ b2 ∈ batches, b1.2.length = b2.2.length) →
      pa.add_particles batches = (none, pa') → pa'.uniform) ∧
    (∀ (pa : ParticleArray) (num : Int) (pa' : ParticleArray),
      pa.uniform → pa.extend num = (none, pa') → pa'.uniform) ∧
    (∀ (pa : ParticleArray) (idxs : List Nat) (pa' : ParticleArray),
      pa.uniform → pa.remove_particles idxs = (none, pa') → pa'.uniform) ∧
    (∀ (pa : ParticleArray) (props : List (String × List ℚ))
        (pa' : ParticleArray),
      pa.uniform → pa.set props = (none, pa') → pa'.uniform) ∧
    (∀ (pa : ParticleArray) (props : List (String × PropInfo))
        (pa' : ParticleArray),
      pa.initWithProps props = (none, pa') → pa'.uniform) :=
  ⟨fun pa info pa' hu hok => (add_property_invariants pa info pa' hu hok).1,
   fun pa batches pa' hu heq hok => uniform_add_particles pa batches pa' hu heq hok,
   fun pa num pa' hu hok => uniform_extend pa num pa' hu hok,
   fun pa idxs pa' hu hok => uniform_remove_particles pa idxs pa' hu hok,
   fun pa props pa' hu hok => uniform_set pa props pa' hu hok,
   fun pa props pa' hok => uniform_initWithProps pa props pa' hok⟩

/-- C3 amended witness: a concrete `add_particles` call with equal-length
batches succeeds and the result satisfies the N-invariant. -/
theorem n_invariant_after_mutations_witness :
    (ParticleArray.mk [("tag", ⟨.long, [5, 5]⟩), ("x", ⟨.double, [1, 2]⟩),
        ("y", ⟨.double, [3, 4]⟩)] [("tag", 0), ("x", 0), ("y", 0)] []
        false).add_particles [("x", [10]), ("y", [20])] =
      (none, ParticleArray.mk [("tag", ⟨.long, [5, 5, 0]⟩),
        ("x", ⟨.double, [1, 2, 10]⟩), ("y", ⟨.double, [3, 4, 20]⟩)]
        [("tag", 0), ("x", 0), ("y", 0)] [] true) ∧
    (ParticleArray.mk [("tag", ⟨.long, [5, 5, 0]⟩),
        ("x", ⟨.double, [1, 2, 10]⟩), ("y", ⟨.double, [3, 4, 20]⟩)]
        [("tag", 0), ("x", 0), ("y", 0)] [] true).uniform :=
  ⟨by decide,
   n_invariant_after_mutations.2.1
     (ParticleArray.mk [("tag", ⟨.long, [5, 5]⟩), ("x", ⟨.double, [1, 2]⟩),
        ("y", ⟨.double, [3, 4]⟩)] [("tag", 0), ("x", 0), ("y", 0)] [] false)
     [("x", [10]), ("y", [20])]
     (ParticleArray.mk [("tag", ⟨.long, [5, 5, 0]⟩),
        ("x", ⟨.double, [1, 2, 10]⟩), ("y", ⟨.double, [3, 4, 20]⟩)]
        [("tag", 0), ("x", 0), ("y", 0)] [] true)
     (by decide) (by decide) (by decide)⟩

/-- Lookup through a key-preserving map whose new value may depend on the
whole binding. -/
theorem assocFind_map_pairfun (f : String × Column → Column)
    (l : List (String × Column)) (k : String) :
    assocFind (l.map (fun q => (q.1, f q))) k =
      (assocFind l k).map (fun c => f (k, c)) := by
  induction l with
  | nil => rfl
  | cons p t ih =>
    obtain ⟨pk, pc⟩ := p
    by_cases hk : pk = k
    · subst hk
      simp [assocFind]
    · simp [assocFind, hk, ih]

theorem fillAll_resize (c : Column) (n : Nat) (v : ℚ) :
    (c.resize n).fillAll v = ⟨c.dtype, List.replicate n v⟩ := by
  show (⟨(c.resize n).dtype, List.replicate (c.resize n).vals.length v⟩ : Column) = _
  rw [Column.length_resize]
  rfl

/-- C7: on an empty store, `add_property` with nonempty (untyped) data of
length L first resizes every pre-existing property to L and overwrites it
with its recorded default, then attaches the data; the store then holds L
particles, so a subsequent `add_property` with a default `d` and no data
yields a column of length L with every element equal to `d`. -/
theorem add_property_empty_backfill_then_default (pa : ParticleArray)
    (nm1 : String) (d1 : Option ℚ) (a : ℚ) (t : List ℚ) (pa1 : ParticleArray)
    (h0 : pa.nparticles = 0)
    (hnew : assocFind pa.properties nm1 = none)
    (hok : pa.add_property ⟨some nm1, none, d1, some (a :: t)⟩ = (none, pa1)) :
    (∀ (k : String) (c : Column) (dk : ℚ),
      assocFind pa.properties k = some c →
      assocFind pa.default_values k = some dk →
      assocFind pa1.properties k =
        some ⟨c.dtype, List.replicate (a :: t).length dk⟩) ∧
    assocFind pa1.properties nm1 = some ⟨.double, a :: t⟩ ∧
    (∀ (nm2 : String) (t2 : Option DataType) (d2 : ℚ) (pa2 : ParticleArray),
      assocFind pa1.properties nm2 = none →
      pa1.add_property ⟨some nm2, t2, some d2, none⟩ = (none, pa2) →
      assocFind pa2.properties nm2 =
        some (_create_carray t2 (a :: t).length d2)) := by
  by_cases hchk : pa.properties.all (fun q =>
      (assocFind (assocSet pa.default_values nm1 (d1.getD 0)) q.1).isSome)
  case neg =>
    have hs := add_property_eq_backfill_keyerror pa nm1 d1 a t hnew h0 hchk
    have h1 := congrArg Prod.fst hok
    simp only at h1
    rw [h1] at hs
    simp at hs
  case pos =>
  rw [add_property_eq_backfill pa nm1 d1 a t hnew h0 hchk] at hok
  have h2 := congrArg Prod.snd hok
  simp only at h2
  subst h2
  refine ⟨?_, ?_, ?_⟩
  · intro k c dk hk hdk
    have hkne : k ≠ nm1 := by
      intro h
      rw [h, hnew] at hk
      cases hk
    have hmapped := assocFind_map_pairfun
      (fun q => (q.2.resize (a :: t).length).fillAll
        ((assocFind (assocSet pa.default_values nm1 (d1.getD 0)) q.1).getD 0))
      pa.properties k
    rw [hk] at hmapped
    simp only [Option.map_some'] at hmapped
    show assocFind (_ ++ _) k = _
    rw [assocFind_append_left _ hmapped]
    rw [assocFind_assocSet_ne _ (fun h => hkne h.symm), hdk]
    simp only [Option.getD_some]
    rw [fillAll_resize]
  · have hmapped := assocFind_map_pairfun
      (fun q => (q.2.resize (a :: t).length).fillAll
        ((assocFind (assocSet pa.default_values nm1 (d1.getD 0)) q.1).getD 0))
      pa.properties nm1
    rw [hnew] at hmapped
    simp only [Option.map_none'] at hmapped
    show assocFind (_ ++ _) nm1 = _
    rw [assocFind_append_right _ hmapped]
    simp [assocFind]
  · intro nm2 t2 d2 pa2 hnm2 hok2
    have hnp1 : nparticles ⟨pa.properties.map (fun q =>
        (q.1, (q.2.resize (a :: t).length).fillAll
          ((assocFind (assocSet pa.default_values nm1 (d1.getD 0)) q.1).getD 0)))
        ++ [(nm1, ⟨.double, a :: t⟩)],
        assocSet pa.default_values nm1 (d1.getD 0),
        pa.temporary_arrays, pa.is_dirty⟩ = (a :: t).length := by
      unfold nparticles
      cases hp : pa.properties with
      | nil => simp
      | cons p r =>
        simp only [hp, List.map_cons, List.cons_append]
        show ((p.2.resize (a :: t).length).fillAll _).vals.length = _
        rw [Column.length_fillAll, Column.length_resize]
    rw [add_property_eq_pos_nodata _ nm2 t2 (some d2) none hnm2
      (by rw [hnp1]; simp) (by simp)] at hok2
    have h2 := congrArg Prod.snd hok2
    simp only at h2
    subst h2
    show assocFind (_ ++ _) nm2 = _
    rw [assocFind_append_right _ hnm2]
    rw [hnp1]
    simp [assocFind]

/-- C7 witness: the spec example.  On an empty store,
`add_property x data=[1,2,3]` backfills `tag` to `[0,0,0]` and attaches
`x = [1,2,3]`; a subsequent `add_property y default=5` (no data) yields
`y = [5,5,5]`. -/
theorem add_property_empty_backfill_then_default_witness :
    assocFind (ParticleArray.mk
        [("tag", ⟨.long, [0, 0, 0]⟩), ("x", ⟨.double, [1, 2, 3]⟩)]
        [("tag", 0), ("x", 0)] [] true).properties "tag"
      = some ⟨.long, List.replicate 3 (0 : ℚ)⟩ ∧
    assocFind (ParticleArray.mk
        [("tag", ⟨.long, [0, 0, 0]⟩), ("x", ⟨.double, [1, 2, 3]⟩)]
        [("tag", 0), ("x", 0)] [] true).properties "x"
      = some ⟨.double, [1, 2, 3]⟩ ∧
    assocFind (ParticleArray.mk
        [("tag", ⟨.long, [0, 0, 0]⟩), ("x", ⟨.double, [1, 2, 3]⟩),
          ("y", ⟨.double, [5, 5, 5]⟩)]
        [("tag", 0), ("x", 0), ("y", 5)] [] true).properties "y"
      = some ⟨.double, List.replicate 3 (5 : ℚ)⟩ :=
  ⟨(add_property_empty_backfill_then_default (emptyPA 0) "x" none 1 [2, 3]
      (ParticleArray.mk [("tag", ⟨.long, [0, 0, 0]⟩), ("x", ⟨.double, [1, 2, 3]⟩)]
        [("tag", 0), ("x", 0)] [] true)
      (by decide) (by decide) (by decide)).1 "tag" ⟨.long, []⟩ 0
      (by decide) (by decide),
   (add_property_empty_backfill_then_default (emptyPA 0) "x" none 1 [2, 3]
      (ParticleArray.mk [("tag", ⟨.long, [0, 0, 0]⟩), ("x", ⟨.double, [1, 2, 3]⟩)]
        [("tag", 0), ("x", 0)] [] true)
      (by decide) (by decide) (by decide)).2.1,
   (add_property_empty_backfill_then_default (emptyPA 0) "x" none 1 [2, 3]
      (ParticleArray.mk [("tag", ⟨.long, [0, 0, 0]⟩), ("x", ⟨.double, [1, 2, 3]⟩)]
        [("tag", 0), ("x", 0)] [] true)
      (by decide) (by decide) (by decide)).2.2 "y" none 5
      (ParticleArray.mk [("tag", ⟨.long, [0, 0, 0]⟩), ("x", ⟨.double, [1, 2, 3]⟩),
          ("y", ⟨.double, [5, 5, 5]⟩)]
        [("tag", 0), ("x", 0), ("y", 5)] [] true)
      (by decide) (by decide)⟩

end ParticleArray

end PySPH
